import Mathlib

/-!
Verification of the anchor network crate: the signed-handshake engine
(envelope, identity record, signing) and the peer connectivity controller
(peer manager thresholds, discovery admission).

Byte strings are modeled as lists of natural numbers; a Rust String is the
list of the numeric values of its characters (the UTF-8 byte-level detail is
abstracted: each character is one symbol, which coincides with the Rust code
on every property stated here, none of which depends on multi-byte
encodings).  Recursive decoders take an explicit fuel argument so that all
definitions compute by kernel reduction; the fuel supplied at each call site
is always sufficient for inputs of the given length.
-/

set_option maxRecDepth 100000

namespace Anchor

/-- Byte strings (Rust Vec of u8 / String contents). -/
abbrev Bytes := List Nat

/-- Numeric character codes of a Lean string literal. -/
def strBytes (s : String) : Bytes := s.data.map Char.toNat

/-! ## Varint (prost encoding::encode_varint / decode_varint)

LEB128, least significant group first, as used both by the domain-separated
signing blob (make_unsigned) and the protobuf envelope encoding. -/

/-- Fuel-indexed varint encoder; emits the base-128 digits of n, least
significant first, with the continuation bit set on all but the last. -/
def encodeVarintAux : Nat → Nat → Bytes
  | 0, n => [n % 128]
  | fuel + 1, n =>
    if n < 128 then [n] else (n % 128 + 128) :: encodeVarintAux fuel (n / 128)

/-- Varint encoding of an arbitrary natural number (fuel n+1 always
suffices, since the value at least halves at each step). -/
def encodeVarint (n : Nat) : Bytes := encodeVarintAux (n + 1) n

/-- Fuel-indexed varint decoder.  The fuel bound of 10 bytes used by the
wrappers matches the u64 limit enforced by prost and by the byte-at-a-time
reader in the handshake codec. -/
def decodeVarintAux : Nat → Bytes → Option (Nat × Bytes)
  | _, [] => none
  | 0, _ => none
  | fuel + 1, b :: rest =>
    if b < 128 then some (b, rest)
    else
      match decodeVarintAux fuel rest with
      | some (v, rem) => some (b % 128 + 128 * v, rem)
      | none => none

/-- Varint decoder with the 10-byte (u64) limit of prost. -/
def decodeVarint (bs : Bytes) : Option (Nat × Bytes) := decodeVarintAux 10 bs

theorem encodeVarintAux_fuel_irrel :
    ∀ f g n, n < 128 ^ f → n < 128 ^ g →
      encodeVarintAux f n = encodeVarintAux g n := by
  intro f
  induction f with
  | zero =>
    intro g n h _
    have hn : n = 0 := by simpa using h
    subst hn
    cases g <;> simp [encodeVarintAux]
  | succ f ih =>
    intro g n hf hg
    cases g with
    | zero =>
      have hn : n = 0 := by simpa using hg
      subst hn
      simp [encodeVarintAux]
    | succ g =>
      by_cases h : n < 128
      · simp [encodeVarintAux, h]
      · simp only [encodeVarintAux, h, if_false]
        have hdf : n / 128 < 128 ^ f := by
          rw [Nat.div_lt_iff_lt_mul (by norm_num)]
          calc n < 128 ^ (f + 1) := hf
          _ = 128 ^ f * 128 := by ring
        have hdg : n / 128 < 128 ^ g := by
          rw [Nat.div_lt_iff_lt_mul (by norm_num)]
          calc n < 128 ^ (g + 1) := hg
          _ = 128 ^ g * 128 := by ring
        rw [ih g (n / 128) hdf hdg]

theorem encodeVarint_eq_aux (f n : Nat) (h : n < 128 ^ f) :
    encodeVarint n = encodeVarintAux f n := by
  apply encodeVarintAux_fuel_irrel
  · calc n < n + 1 := Nat.lt_succ_self n
    _ ≤ 128 ^ (n + 1) := by
        calc n + 1 ≤ 2 ^ (n + 1) := (Nat.lt_two_pow (n + 1)).le
        _ ≤ 128 ^ (n + 1) := Nat.pow_le_pow_left (by norm_num) _
  · exact h

theorem decodeVarintAux_encode (f : Nat) :
    ∀ n rest, n < 128 ^ f → 0 < f →
      decodeVarintAux f (encodeVarintAux f n ++ rest) = some (n, rest) := by
  induction f with
  | zero => intro n rest _ hf; omega
  | succ f ih =>
    intro n rest h _
    by_cases hn : n < 128
    · simp [encodeVarintAux, decodeVarintAux, hn]
    · have hb : ¬ n % 128 + 128 < 128 := by omega
      have hd : n / 128 < 128 ^ f := by
        rw [Nat.div_lt_iff_lt_mul (by norm_num)]
        calc n < 128 ^ (f + 1) := h
        _ = 128 ^ f * 128 := by ring
      have hf : 0 < f := by
        by_contra hc
        have : f = 0 := by omega
        subst this
        simp at h
        omega
      simp only [encodeVarintAux, hn, if_false, List.cons_append,
        decodeVarintAux, hb, ih (n / 128) rest hd hf]
      have : (n % 128 + 128) % 128 = n % 128 := by omega
      rw [this]
      have : n % 128 + 128 * (n / 128) = n := by omega
      rw [this]

/-- Round trip for varints within the u64 range of prost. -/
theorem decodeVarint_encodeVarint (n : Nat) (rest : Bytes) (h : n < 128 ^ 10) :
    decodeVarint (encodeVarint n ++ rest) = some (n, rest) := by
  rw [decodeVarint, encodeVarint_eq_aux 10 n h]
  exact decodeVarintAux_encode 10 n rest h (by norm_num)

/-! ## JSON text (serde_json)

The identity record is serialized with serde_json: the outer document is an
object with a single field named Entries holding an array of strings, and
the optional metadata is itself a JSON object (of four string fields)
rendered as a string and stored as the third entry.  The printer below
follows the compact serde_json output (no whitespace, declaration-order
fields, lowercase hex escapes for control characters); the parser accepts
exactly the constructions needed by the source: strings with the standard
escapes, arrays of strings, and objects with string values.  Inputs with
insignificant whitespace, reordered object fields or surrogate escape pairs,
which serde_json would also accept, do not occur in any statement below. -/

/-- Hex digit character code, lowercase, as in the serde_json escape table. -/
def hexDig (n : Nat) : Nat := if n < 10 then 48 + n else 87 + n

/-- Value of a hex digit character (serde_json accepts both cases). -/
def hexVal (c : Nat) : Option Nat :=
  if 48 ≤ c ∧ c ≤ 57 then some (c - 48)
  else if 97 ≤ c ∧ c ≤ 102 then some (c - 87)
  else if 65 ≤ c ∧ c ≤ 70 then some (c - 55)
  else none

/-- Escape of one character inside a JSON string, following serde_json:
quote and backslash are escaped, the five named control escapes are used,
any other control character becomes a lowercase u-escape, and everything
else is emitted literally. -/
def escByte (c : Nat) : Bytes :=
  if c = 34 then [92, 34]
  else if c = 92 then [92, 92]
  else if c = 8 then [92, 98]
  else if c = 9 then [92, 116]
  else if c = 10 then [92, 110]
  else if c = 12 then [92, 102]
  else if c = 13 then [92, 114]
  else if c < 32 then [92, 117, 48, 48, hexDig (c / 16), hexDig (c % 16)]
  else [c]

/-- Body of a JSON string: every character escaped as needed. -/
def printStringBody (s : Bytes) : Bytes := s.flatMap escByte

/-- A complete JSON string literal, quotes included. -/
def printJsonString (s : Bytes) : Bytes := 34 :: printStringBody s ++ [34]

/-- Value of a single-character escape after a backslash. -/
def unescapeByte (c : Nat) : Option Nat :=
  if c = 34 then some 34
  else if c = 92 then some 92
  else if c = 47 then some 47
  else if c = 98 then some 8
  else if c = 116 then some 9
  else if c = 110 then some 10
  else if c = 102 then some 12
  else if c = 114 then some 13
  else none

/-- Fuel-indexed JSON string body parser: consumes up to and including the
closing quote, returning the unescaped characters and the remaining input. -/
def parseStringAux : Nat → Bytes → Option (Bytes × Bytes)
  | 0, _ => none
  | _, [] => none
  | fuel + 1, c :: rest =>
    if c = 34 then some ([], rest)
    else if c = 92 then
      match rest with
      | [] => none
      | e :: rest2 =>
        if e = 117 then
          match rest2 with
          | h1 :: h2 :: h3 :: h4 :: rest3 =>
            match hexVal h1, hexVal h2, hexVal h3, hexVal h4 with
            | some v1, some v2, some v3, some v4 =>
              match parseStringAux fuel rest3 with
              | some (s, r) =>
                some ((((v1 * 16 + v2) * 16 + v3) * 16 + v4) :: s, r)
              | none => none
            | _, _, _, _ => none
          | _ => none
        else
          match unescapeByte e with
          | some u =>
            match parseStringAux fuel rest2 with
            | some (s, r) => some (u :: s, r)
            | none => none
          | none => none
    else
      match parseStringAux fuel rest with
      | some (s, r) => some (c :: s, r)
      | none => none

/-- Parse a JSON string body, with fuel derived from the input length. -/
def parseJsonStringBody (bs : Bytes) : Option (Bytes × Bytes) :=
  parseStringAux (bs.length + 1) bs

theorem hexVal_hexDig (n : Nat) (h : n < 16) : hexVal (hexDig n) = some n := by
  interval_cases n <;> rfl

theorem parseStringAux_print (s : Bytes) :
    ∀ fuel rest, s.length < fuel →
      parseStringAux fuel (printStringBody s ++ 34 :: rest) = some (s, rest) := by
  induction s with
  | nil =>
    intro fuel rest h
    obtain ⟨f, rfl⟩ : ∃ f, fuel = f + 1 := ⟨fuel - 1, by omega⟩
    simp [printStringBody, parseStringAux]
  | cons c s ih =>
    intro fuel rest h
    obtain ⟨f, rfl⟩ : ∃ f, fuel = f + 1 := ⟨fuel - 1, by omega⟩
    have hf : s.length < f := by
      simp only [List.length_cons] at h; omega
    have hih := ih f rest hf
    simp only [printStringBody, List.flatMap_cons, List.append_assoc]
    rcases Nat.lt_or_ge c 32 with hc32 | hc32
    · by_cases h8 : c = 8
      · subst h8; simp [escByte, parseStringAux, unescapeByte,
          printStringBody] at hih ⊢; simp [hih]
      · by_cases h9 : c = 9
        · subst h9; simp [escByte, parseStringAux, unescapeByte,
            printStringBody] at hih ⊢; simp [hih]
        · by_cases h10 : c = 10
          · subst h10; simp [escByte, parseStringAux, unescapeByte,
              printStringBody] at hih ⊢; simp [hih]
          · by_cases h12 : c = 12
            · subst h12; simp [escByte, parseStringAux, unescapeByte,
                printStringBody] at hih ⊢; simp [hih]
            · by_cases h13 : c = 13
              · subst h13; simp [escByte, parseStringAux, unescapeByte,
                  printStringBody] at hih ⊢; simp [hih]
              · have hne34 : c ≠ 34 := by omega
                have hne92 : c ≠ 92 := by omega
                have hq : hexVal (hexDig (c / 16)) = some (c / 16) :=
                  hexVal_hexDig _ (by omega)
                have hr : hexVal (hexDig (c % 16)) = some (c % 16) :=
                  hexVal_hexDig _ (by omega)
                have hc : ((0 * 16 + 0) * 16 + c / 16) * 16 + c % 16 = c := by
                  omega
                simp only [escByte, hne34, hne92, h8, h9, h10, h12, h13,
                  if_false, hc32, if_true, List.cons_append, List.nil_append,
                  parseStringAux]
                rw [show hexVal 48 = some 0 from rfl, hq, hr]
                simp only [printStringBody] at hih
                simp [hih]
                omega
    · have hb : escByte c = if c = 34 then [92, 34]
          else if c = 92 then [92, 92] else [c] := by
        have h8 : c ≠ 8 := by omega
        have h9 : c ≠ 9 := by omega
        have h10 : c ≠ 10 := by omega
        have h12 : c ≠ 12 := by omega
        have h13 : c ≠ 13 := by omega
        have hlt : ¬ c < 32 := by omega
        simp only [escByte, h8, h9, h10, h12, h13, hlt, if_false]
      by_cases h34 : c = 34
      · subst h34
        simp only [hb, if_true, List.cons_append, List.nil_append,
          parseStringAux]
        norm_num [unescapeByte, printStringBody] at hih ⊢
        simp [hih]
      · by_cases h92 : c = 92
        · subst h92
          simp only [hb, if_false, if_true, List.cons_append, List.nil_append,
            parseStringAux, h34]
          norm_num [unescapeByte, printStringBody] at hih ⊢
          simp [hih]
        · simp only [hb, h34, h92, if_false, List.cons_append,
            List.nil_append, parseStringAux]
          norm_num [printStringBody] at hih ⊢
          simp [hih, h34, h92]

theorem one_le_length_escByte (c : Nat) : 1 ≤ (escByte c).length := by
  simp only [escByte]
  split_ifs <;> simp

theorem le_length_printStringBody (s : Bytes) :
    s.length ≤ (printStringBody s).length := by
  induction s with
  | nil => simp [printStringBody]
  | cons c s ih =>
    simp only [printStringBody, List.flatMap_cons, List.length_append,
      List.length_cons] at ih ⊢
    have := one_le_length_escByte c
    omega

/-- Round trip for a printed JSON string body followed by its closing
quote, with the length-derived fuel of the wrapper. -/
theorem parseJsonStringBody_print (s : Bytes) (rest : Bytes) :
    parseJsonStringBody (printStringBody s ++ 34 :: rest) = some (s, rest) := by
  apply parseStringAux_print
  have := le_length_printStringBody s
  simp only [List.length_append, List.length_cons]
  omega

/-! ### JSON arrays of strings -/

/-- Printed continuation of a string array: a comma and a string literal for
each further element. -/
def printStrArrayTail : List Bytes → Bytes
  | [] => []
  | s :: tl => 44 :: (printJsonString s ++ printStrArrayTail tl)

/-- Printed string array with the opening bracket stripped. -/
def printStrArrayRest : List Bytes → Bytes
  | [] => [93]
  | s :: tl => printJsonString s ++ printStrArrayTail tl ++ [93]

/-- Printed JSON array of strings. -/
def printStrArray (ss : List Bytes) : Bytes := 91 :: printStrArrayRest ss

/-- Fuel-indexed parser for the continuation of a string array (after a
complete element): a closing bracket ends it, a comma starts another string
element. -/
def parseMoreStringsAux : Nat → Bytes → Option (List Bytes × Bytes)
  | 0, _ => none
  | _, [] => none
  | fuel + 1, c :: rest =>
    if c = 93 then some ([], rest)
    else if c = 44 then
      match rest with
      | [] => none
      | d :: rest2 =>
        if d = 34 then
          match parseJsonStringBody rest2 with
          | some (s, r1) =>
            match parseMoreStringsAux fuel r1 with
            | some (ss, r2) => some (s :: ss, r2)
            | none => none
          | none => none
        else none
    else none

/-- Parser for a string array, starting after the opening bracket. -/
def parseStrArray (input : Bytes) : Option (List Bytes × Bytes) :=
  match input with
  | [] => none
  | c :: rest =>
    if c = 93 then some ([], rest)
    else if c = 34 then
      match parseJsonStringBody rest with
      | some (s, r1) =>
        match parseMoreStringsAux (r1.length + 1) r1 with
        | some (ss, r2) => some (s :: ss, r2)
        | none => none
      | none => none
    else none

theorem parseMoreStringsAux_print (ss : List Bytes) :
    ∀ fuel rest, (printStrArrayTail ss).length < fuel →
      parseMoreStringsAux fuel (printStrArrayTail ss ++ 93 :: rest) =
        some (ss, rest) := by
  induction ss with
  | nil =>
    intro fuel rest h
    obtain ⟨f, rfl⟩ : ∃ f, fuel = f + 1 := ⟨fuel - 1, by omega⟩
    simp [printStrArrayTail, parseMoreStringsAux]
  | cons s tl ih =>
    intro fuel rest h
    obtain ⟨f, rfl⟩ : ∃ f, fuel = f + 1 := ⟨fuel - 1, by omega⟩
    simp only [printStrArrayTail, List.length_cons, List.length_append] at h
    have htl : (printStrArrayTail tl).length < f := by omega
    simp only [printStrArrayTail, printJsonString, List.cons_append,
      List.append_assoc, parseMoreStringsAux]
    norm_num
    simp [parseJsonStringBody_print, ih f rest htl]

theorem parseStrArray_print (ss : List Bytes) (rest : Bytes) :
    parseStrArray (printStrArrayRest ss ++ rest) = some (ss, rest) := by
  cases ss with
  | nil => simp [printStrArrayRest, parseStrArray]
  | cons s tl =>
    simp only [printStrArrayRest, printJsonString, List.cons_append,
      List.append_assoc, parseStrArray]
    norm_num
    simp [parseJsonStringBody_print,
      parseMoreStringsAux_print tl
        ((printStrArrayTail tl).length + (rest.length + 1) + 1) rest (by omega)]

/-! ### JSON objects with string values -/

/-- Printed continuation of an object of string fields. -/
def printObjTail : List (Bytes × Bytes) → Bytes
  | [] => []
  | (k, v) :: tl =>
    44 :: (printJsonString k ++ 58 :: (printJsonString v ++ printObjTail tl))

/-- Printed object of string fields with the opening brace stripped. -/
def printObjRest : List (Bytes × Bytes) → Bytes
  | [] => [125]
  | (k, v) :: tl =>
    printJsonString k ++ 58 :: (printJsonString v ++ printObjTail tl ++ [125])

/-- Printed JSON object of string fields, in the given field order (serde
serializes struct fields in declaration order). -/
def printObj (fields : List (Bytes × Bytes)) : Bytes := 123 :: printObjRest fields

/-- Fuel-indexed parser for the continuation of an object of string
fields. -/
def parseMoreFieldsAux : Nat → Bytes → Option (List (Bytes × Bytes) × Bytes)
  | 0, _ => none
  | _, [] => none
  | fuel + 1, c :: rest =>
    if c = 125 then some ([], rest)
    else if c = 44 then
      match rest with
      | [] => none
      | d :: rest2 =>
        if d = 34 then
          match parseJsonStringBody rest2 with
          | some (k, r1) =>
            match r1 with
            | [] => none
            | e :: r2 =>
              if e = 58 then
                match r2 with
                | [] => none
                | f :: r3 =>
                  if f = 34 then
                    match parseJsonStringBody r3 with
                    | some (v, r4) =>
                      match parseMoreFieldsAux fuel r4 with
                      | some (fs, r5) => some ((k, v) :: fs, r5)
                      | none => none
                    | none => none
                  else none
              else none
          | none => none
        else none
    else none

/-- Parser for an object of string fields, starting after the opening
brace. -/
def parseObjFields (input : Bytes) : Option (List (Bytes × Bytes) × Bytes) :=
  match input with
  | [] => none
  | c :: rest =>
    if c = 125 then some ([], rest)
    else if c = 34 then
      match parseJsonStringBody rest with
      | some (k, r1) =>
        match r1 with
        | [] => none
        | e :: r2 =>
          if e = 58 then
            match r2 with
            | [] => none
            | f :: r3 =>
              if f = 34 then
                match parseJsonStringBody r3 with
                | some (v, r4) =>
                  match parseMoreFieldsAux (r4.length + 1) r4 with
                  | some (fs, r5) => some ((k, v) :: fs, r5)
                  | none => none
                | none => none
              else none
          else none
      | none => none
    else none

theorem parseMoreFieldsAux_print (fs : List (Bytes × Bytes)) :
    ∀ fuel rest, (printObjTail fs).length < fuel →
      parseMoreFieldsAux fuel (printObjTail fs ++ 125 :: rest) =
        some (fs, rest) := by
  induction fs with
  | nil =>
    intro fuel rest h
    obtain ⟨f, rfl⟩ : ∃ f, fuel = f + 1 := ⟨fuel - 1, by omega⟩
    simp [printObjTail, parseMoreFieldsAux]
  | cons kv tl ih =>
    obtain ⟨k, v⟩ := kv
    intro fuel rest h
    obtain ⟨f, rfl⟩ : ∃ f, fuel = f + 1 := ⟨fuel - 1, by omega⟩
    simp only [printObjTail, List.length_cons, List.length_append] at h
    have htl : (printObjTail tl).length < f := by omega
    simp only [printObjTail, printJsonString, List.cons_append,
      List.append_assoc, parseMoreFieldsAux]
    norm_num
    simp [parseJsonStringBody_print, ih f rest htl]

theorem parseObjFields_print (fs : List (Bytes × Bytes)) (rest : Bytes) :
    parseObjFields (printObjRest fs ++ rest) = some (fs, rest) := by
  cases fs with
  | nil => simp [printObjRest, parseObjFields]
  | cons kv tl =>
    obtain ⟨k, v⟩ := kv
    simp only [printObjRest, printJsonString, List.cons_append,
      List.append_assoc, parseObjFields]
    norm_num
    simp [parseJsonStringBody_print,
      parseMoreFieldsAux_print tl
        ((printObjTail tl).length + (rest.length + 1) + 1) rest (by omega)]

/-! ## Identity record (handshake/node_info.rs and handshake/types.rs)

NodeMetadata and NodeInfo, their serde field names, and the 2/3-entry wire
encoding.  The marshal and unmarshal functions in node_info.rs and in the
Record implementation of types.rs are textually identical (they differ only
in the CODEC constant of the surrounding trait), so a single model serves
both. -/

/-- Metadata carried in the third entry, with serde rename attributes
NodeVersion / ExecutionNode / ConsensusNode / Subnets in declaration
order. -/
structure NodeMetadata where
  node_version : Bytes
  execution_node : Bytes
  consensus_node : Bytes
  subnets : Bytes
deriving DecidableEq

instance : Inhabited NodeMetadata := ⟨⟨[], [], [], []⟩⟩

/-- The identity record: network id plus optional metadata.  Default has an
empty network id and no metadata, as derived by Rust Default. -/
structure NodeInfo where
  network_id : Bytes
  metadata : Option NodeMetadata
deriving DecidableEq

instance : Inhabited NodeInfo := ⟨⟨[], none⟩⟩

/-- Errors of NodeInfo unmarshalling: a serde_json decode failure
(Error::Serialization) or the too-few-entries check (Error::Validation). -/
inductive RecordError where
  | serialization
  | validation
deriving DecidableEq

/-- Serialization of NodeMetadata by serde_json::to_vec: a compact object
with the four renamed fields in declaration order. -/
def NodeMetadata.marshal (m : NodeMetadata) : Bytes :=
  printObj [(strBytes "NodeVersion", m.node_version),
            (strBytes "ExecutionNode", m.execution_node),
            (strBytes "ConsensusNode", m.consensus_node),
            (strBytes "Subnets", m.subnets)]

/-- Deserialization of NodeMetadata by serde_json::from_slice: parse an
object of string fields and require the four named fields (unknown fields
are ignored, as serde does by default; whitespace, reordered fields and
duplicate keys do not occur in any input considered here). -/
def NodeMetadata.unmarshal (data : Bytes) : Option NodeMetadata :=
  match data with
  | [] => none
  | c :: rest =>
    if c = 123 then
      match parseObjFields rest with
      | some (fields, rem) =>
        if rem = [] then
          match fields.lookup (strBytes "NodeVersion"),
              fields.lookup (strBytes "ExecutionNode"),
              fields.lookup (strBytes "ConsensusNode"),
              fields.lookup (strBytes "Subnets") with
          | some nv, some en, some cn, some sn => some ⟨nv, en, cn, sn⟩
          | _, _, _, _ => none
        else none
      | none => none
    else none

/-- Serialization of the Serializable wrapper by serde_json::to_vec: a
compact object with the single field Entries holding the string array. -/
def printEntriesDoc (entries : List Bytes) : Bytes :=
  123 :: (printJsonString (strBytes "Entries") ++
    58 :: (printStrArray entries ++ [125]))

/-- Deserialization of the Serializable wrapper by serde_json::from_slice:
an object whose Entries field is an array of strings, consuming the whole
input. -/
def parseEntriesDoc (data : Bytes) : Option (List Bytes) :=
  match data with
  | [] => none
  | c :: rest =>
    if c = 123 then
      match rest with
      | [] => none
      | d :: rest2 =>
        if d = 34 then
          match parseJsonStringBody rest2 with
          | some (key, r1) =>
            if key = strBytes "Entries" then
              match r1 with
              | [] => none
              | e :: r2 =>
                if e = 58 then
                  match r2 with
                  | [] => none
                  | f :: r3 =>
                    if f = 91 then
                      match parseStrArray r3 with
                      | some (entries, r4) =>
                        if r4 = [125] then some entries else none
                      | none => none
                    else none
                else none
            else none
          | none => none
        else none
    else none

/-- NodeInfo::marshal (node_info.rs line 62, identically marshal_record in
types.rs line 46): entries are the deprecated empty placeholder, the network
id, and, when metadata is present, its JSON rendering; the whole list is
then JSON-encoded.  The Rust Result is total here: serde_json::to_vec of
these string-only values and the UTF-8 conversion of JSON output cannot
fail. -/
def NodeInfo.marshal (info : NodeInfo) : Bytes :=
  printEntriesDoc
    ([[], info.network_id] ++
      (match info.metadata with
       | some m => [m.marshal]
       | none => []))

/-- Core of NodeInfo::unmarshal after the outer serde parse (types.rs
unmarshal_record lines 64-76, node_info.rs unmarshal lines 80-92), operating
on the decoded entries list.  The record is mutated in place: network_id is
overwritten from entry 1 before the metadata entry is decoded, so a
metadata decode failure leaves the record with the already-updated
network_id.  Returns the final record state and the error, if any. -/
def NodeInfo.unmarshalEntries (self : NodeInfo) (entries : List Bytes) :
    NodeInfo × Option RecordError :=
  match entries with
  | _ :: e1 :: rest =>
    let self1 : NodeInfo := { self with network_id := e1 }
    match rest with
    | [] => (self1, none)
    | e2 :: _ =>
      match NodeMetadata.unmarshal e2 with
      | some m => ({ self1 with metadata := some m }, none)
      | none => (self1, some .serialization)
  | _ => (self, some .validation)

/-- NodeInfo::unmarshal on raw bytes: outer serde parse (failure leaves the
record untouched), then the entries logic. -/
def NodeInfo.unmarshal (self : NodeInfo) (data : Bytes) :
    NodeInfo × Option RecordError :=
  match parseEntriesDoc data with
  | none => (self, some .serialization)
  | some entries => self.unmarshalEntries entries

theorem NodeMetadata.unmarshal_marshal_meta (m : NodeMetadata) :
    NodeMetadata.unmarshal m.marshal = some m := by
  obtain ⟨nv, en, cn, sn⟩ := m
  show NodeMetadata.unmarshal (printObj _) = _
  simp only [printObj, NodeMetadata.unmarshal]
  norm_num
  rw [show printObjRest [(strBytes "NodeVersion", nv),
      (strBytes "ExecutionNode", en), (strBytes "ConsensusNode", cn),
      (strBytes "Subnets", sn)] =
    printObjRest [(strBytes "NodeVersion", nv),
      (strBytes "ExecutionNode", en), (strBytes "ConsensusNode", cn),
      (strBytes "Subnets", sn)] ++ [] by simp, parseObjFields_print]
  simp [List.lookup, strBytes]

theorem parseEntriesDoc_print (entries : List Bytes) :
    parseEntriesDoc (printEntriesDoc entries) = some entries := by
  simp only [printEntriesDoc, printJsonString, printStrArray,
    List.cons_append, List.append_assoc, parseEntriesDoc]
  norm_num
  rw [show printStringBody (strBytes "Entries") ++
      34 :: 58 :: 91 :: (printStrArrayRest entries ++ [125]) =
    printStringBody (strBytes "Entries") ++
      34 :: (58 :: 91 :: (printStrArrayRest entries ++ [125])) from rfl,
    parseJsonStringBody_print]
  simp [parseStrArray_print]

/-- Round trip of the identity record encoding, starting from the default
record as consume_envelope does. -/
theorem NodeInfo.unmarshal_marshal (info : NodeInfo) :
    NodeInfo.unmarshal default info.marshal = (info, none) := by
  obtain ⟨nid, meta⟩ := info
  cases meta with
  | none =>
    simp [NodeInfo.marshal, NodeInfo.unmarshal, parseEntriesDoc_print,
      NodeInfo.unmarshalEntries, default]
  | some m =>
    simp [NodeInfo.marshal, NodeInfo.unmarshal, parseEntriesDoc_print,
      NodeInfo.unmarshalEntries, NodeMetadata.unmarshal_marshal_meta, default]

/-! ## Envelope (handshake/record/envelope.rs, handshake/envelope.rs)

Four bytes fields with protobuf tags 1 (public_key), 2 (payload_type),
3 (payload) and 5 (signature); tag 4 is intentionally unused.  Encoding is
the prost wire format: fields in tag order, each as key varint (tag shifted
left by three, wire type 2), length varint, raw bytes, with fields holding
the default (empty) value skipped.  The decoder accepts fields in any
order, skips unknown fields by wire type, and rejects field number zero,
as prost does.  The decoding fuel, input length plus four, is sufficient
for every input since each iteration consumes at least one byte. -/

structure Envelope where
  public_key : Bytes
  payload_type : Bytes
  payload : Bytes
  signature : Bytes
deriving DecidableEq

instance : Inhabited Envelope := ⟨⟨[], [], [], []⟩⟩

/-- One encoded length-delimited field; empty bytes fields are skipped as
prost skips default values. -/
def encodeField (tag : Nat) (bs : Bytes) : Bytes :=
  if bs = [] then []
  else encodeVarint (tag * 8 + 2) ++ (encodeVarint bs.length ++ bs)

/-- Envelope::encode_to_vec via prost. -/
def Envelope.encode (e : Envelope) : Bytes :=
  encodeField 1 e.public_key ++ (encodeField 2 e.payload_type ++
    (encodeField 3 e.payload ++ encodeField 5 e.signature))

/-- Merge one length-delimited field into the envelope being decoded
(prost replaces the previous value of a bytes field; unknown tags are
ignored). -/
def setField (tag : Nat) (bs : Bytes) (e : Envelope) : Envelope :=
  if tag = 1 then { e with public_key := bs }
  else if tag = 2 then { e with payload_type := bs }
  else if tag = 3 then { e with payload := bs }
  else if tag = 5 then { e with signature := bs }
  else e

/-- Fuel-indexed prost message decode loop. -/
def decodeFieldsAux : Nat → Bytes → Envelope → Option Envelope
  | _, [], acc => some acc
  | 0, _ :: _, _ => none
  | fuel + 1, b :: rest, acc =>
    match decodeVarint (b :: rest) with
    | none => none
    | some (key, r1) =>
      if key / 8 = 0 then none
      else if key % 8 = 2 then
        match decodeVarint r1 with
        | none => none
        | some (len, r2) =>
          if len ≤ r2.length then
            decodeFieldsAux fuel (r2.drop len) (setField (key / 8) (r2.take len) acc)
          else none
      else if key % 8 = 0 then
        match decodeVarint r1 with
        | none => none
        | some (_, r2) => decodeFieldsAux fuel r2 acc
      else if key % 8 = 1 then
        if 8 ≤ r1.length then decodeFieldsAux fuel (r1.drop 8) acc else none
      else if key % 8 = 5 then
        if 4 ≤ r1.length then decodeFieldsAux fuel (r1.drop 4) acc else none
      else none

/-- Envelope::decode_from_slice via prost. -/
def Envelope.decode (bs : Bytes) : Option Envelope :=
  decodeFieldsAux (bs.length + 4) bs default

theorem decodeFieldsAux_block (fuel tag : Nat) (bs rest : Bytes)
    (acc : Envelope) (hne : bs ≠ []) (hlen : bs.length < 128 ^ 10)
    (h1 : 1 ≤ tag) (h15 : tag ≤ 15) :
    decodeFieldsAux (fuel + 1) (encodeField tag bs ++ rest) acc =
      decodeFieldsAux fuel rest (setField tag bs acc) := by
  have hkey : tag * 8 + 2 < 128 := by omega
  have henc : encodeVarint (tag * 8 + 2) = [tag * 8 + 2] := by
    simp [encodeVarint, encodeVarintAux, hkey]
  simp only [encodeField, hne, if_false, henc, List.cons_append,
    List.append_assoc, List.nil_append]
  have hvar : decodeVarint ((tag * 8 + 2) ::
      (encodeVarint bs.length ++ (bs ++ rest))) =
      some (tag * 8 + 2, encodeVarint bs.length ++ (bs ++ rest)) := by
    simp [decodeVarint, decodeVarintAux, hkey]
  simp only [decodeFieldsAux, hvar]
  rw [show (tag * 8 + 2) / 8 = tag by omega, show (tag * 8 + 2) % 8 = 2 by omega]
  have htagne : ¬ tag = 0 := by omega
  simp only [htagne, if_false, reduceIte]
  rw [decodeVarint_encodeVarint bs.length (bs ++ rest) hlen]
  simp [List.take_left, List.drop_left]

theorem decodeFieldsAux_encode (fuel : Nat) (pk pt p sg : Bytes)
    (hpk : pk ≠ []) (hpt : pt ≠ []) (hp : p ≠ []) (hsg : sg ≠ [])
    (b1 : pk.length < 128 ^ 10) (b2 : pt.length < 128 ^ 10)
    (b3 : p.length < 128 ^ 10) (b4 : sg.length < 128 ^ 10) :
    decodeFieldsAux (fuel + 4)
      (Envelope.encode ⟨pk, pt, p, sg⟩) default = some ⟨pk, pt, p, sg⟩ := by
  simp only [Envelope.encode]
  rw [show fuel + 4 = (fuel + 3) + 1 from rfl,
    decodeFieldsAux_block _ 1 pk _ _ hpk b1 (by norm_num) (by norm_num),
    show fuel + 3 = (fuel + 2) + 1 from rfl,
    decodeFieldsAux_block _ 2 pt _ _ hpt b2 (by norm_num) (by norm_num),
    show fuel + 2 = (fuel + 1) + 1 from rfl,
    decodeFieldsAux_block _ 3 p _ _ hp b3 (by norm_num) (by norm_num),
    show encodeField 5 sg = encodeField 5 sg ++ [] by simp,
    decodeFieldsAux_block _ 5 sg _ _ hsg b4 (by norm_num) (by norm_num)]
  simp [decodeFieldsAux, setField, default]

/-- Prost round trip on envelopes whose four fields are nonempty and of
representable (u64) length; sealed envelopes always have this shape. -/
theorem Envelope.decode_encode (e : Envelope)
    (hpk : e.public_key ≠ []) (hpt : e.payload_type ≠ [])
    (hp : e.payload ≠ []) (hsg : e.signature ≠ [])
    (l1 : e.public_key.length < 2 ^ 64) (l2 : e.payload_type.length < 2 ^ 64)
    (l3 : e.payload.length < 2 ^ 64) (l4 : e.signature.length < 2 ^ 64) :
    Envelope.decode e.encode = some e := by
  obtain ⟨pk, pt, p, sg⟩ := e
  simp only at hpk hpt hp hsg l1 l2 l3 l4
  exact decodeFieldsAux_encode _ pk pt p sg hpk hpt hp hsg
    (lt_trans l1 (by norm_num)) (lt_trans l2 (by norm_num))
    (lt_trans l3 (by norm_num)) (lt_trans l4 (by norm_num))

/-! ## Keys and signatures (libp2p identity crate, external)

The cryptographic primitives are supplied by the external libp2p identity
crate and are modeled abstractly: a keypair is identified by a secret
scalar, the protobuf encoding of the public key is an injective two-byte
rendering tagged with a leading marker, and verification succeeds exactly
on the signature the matching keypair produced over the same message.  No
statement below depends on any further property of the cryptography. -/

structure Keypair where
  sk : Nat
deriving DecidableEq

/-- Keypair::public().encode_protobuf(). -/
def Keypair.publicProtobuf (k : Keypair) : Bytes := [1, k.sk]

/-- Keypair::sign over a message. -/
def Keypair.signed (k : Keypair) (msg : Bytes) : Bytes := k.sk :: msg

/-- PublicKey::try_decode_protobuf: succeeds exactly on the injective
public-key rendering, failing on any other byte string. -/
def tryDecodePublicKey (bs : Bytes) : Option Nat :=
  match bs with
  | [m, pk] => if m = 1 then some pk else none
  | _ => none

/-- PublicKey::verify of a signature over a message. -/
def publicKeyVerify (pk : Nat) (msg sig : Bytes) : Bool :=
  sig == pk :: msg

/-! ## Sealing and consuming records (handshake/record/signing.rs,
handshake/node_info.rs, handshake/envelope/mod.rs) -/

/-- make_unsigned (record/signing.rs line 72, envelope.rs line 63): the
domain-separated blob, each of domain, payload type and payload prefixed
with its varint-encoded length. -/
def make_unsigned (domain payload_type payload : Bytes) : Bytes :=
  encodeVarint domain.length ++ (domain ++
    (encodeVarint payload_type.length ++ (payload_type ++
      (encodeVarint payload.length ++ payload))))

/-- Configuration errors of sealing (empty domain or payload type). -/
inductive SealError where
  | emptyDomain
  | emptyPayloadType
deriving DecidableEq

/-- Common sealing logic, parameterized by the payload-type constant: the
generic seal_record of record/signing.rs (lines 12-39) and NodeInfo::seal of
node_info.rs (lines 99-126) are this construction at their respective CODEC
constants, both with DOMAIN ssv. -/
def sealRecordWith (ptype : Bytes) (r : NodeInfo) (k : Keypair) :
    Except SealError Envelope :=
  let domain := strBytes "ssv"
  if domain = [] then .error .emptyDomain
  else if ptype = [] then .error .emptyPayloadType
  else
    let raw := r.marshal
    let unsigned := make_unsigned domain ptype raw
    Except.ok ⟨k.publicProtobuf, ptype, raw, k.signed unsigned⟩

/-- seal_record at the NodeInfo Record instance of types.rs (CODEC
ssv:nodeinfo). -/
def seal_record (r : NodeInfo) (k : Keypair) : Except SealError Envelope :=
  sealRecordWith (strBytes "ssv:nodeinfo") r k

/-- NodeInfo::seal of node_info.rs (CODEC ssv/nodeinfo). -/
def NodeInfo.seal (r : NodeInfo) (k : Keypair) : Except SealError Envelope :=
  sealRecordWith (strBytes "ssv/nodeinfo") r k

/-- Error results of consume_envelope. -/
inductive ConsumeError where
  | decode
  | unmarshal (e : RecordError)
  | signatureInvalid
deriving DecidableEq

/-- Outcome of consume_envelope: a result, an error, or a Rust panic. -/
inductive ConsumeOutcome where
  | ok (env : Envelope) (rec : NodeInfo)
  | error (e : ConsumeError)
  | panicked
deriving DecidableEq

/-- consume_envelope (record/signing.rs lines 42-70): decode the envelope
bytes, unmarshal the payload into a default record (an error is propagated
with the question-mark operator), then decode the public key with unwrap —
a panic, not an error, on undecodable key bytes — and check the signature
over the blob recomputed from the fixed NodeInfo domain and codec. -/
def consume_envelope (bytes : Bytes) : ConsumeOutcome :=
  match Envelope.decode bytes with
  | none => .error .decode
  | some env =>
    let unsigned :=
      make_unsigned (strBytes "ssv") (strBytes "ssv:nodeinfo") env.payload
    match NodeInfo.unmarshal default env.payload with
    | (_, some e) => .error (.unmarshal e)
    | (rec, none) =>
      match tryDecodePublicKey env.public_key with
      | none => .panicked
      | some pk =>
        if publicKeyVerify pk unsigned env.signature then .ok env rec
        else .error .signatureInvalid

/-- Error type of parse_envelope in envelope/mod.rs (the iteration whose
public-key decode failure is an ordinary error value). -/
inductive ParseEnvError where
  | decode
  | publicKeyDecoding
  | signatureVerification
deriving DecidableEq

/-- parse_envelope (envelope/mod.rs lines 64-81): decode the envelope,
decode the public key — a PublicKeyDecoding error, not a panic, on failure —
and verify the signature over the blob recomputed from the fixed NodeInfo
domain and codec of node_info.rs.  The otherwise identical parse_envelope of
the flat envelope.rs file (lines 44-61) instead unwraps the key decode, like
consume_envelope. -/
def parse_envelope (bytes : Bytes) : Except ParseEnvError Envelope :=
  match Envelope.decode bytes with
  | none => .error .decode
  | some env =>
    let unsigned :=
      make_unsigned (strBytes "ssv") (strBytes "ssv/nodeinfo") env.payload
    match tryDecodePublicKey env.public_key with
    | none => .error .publicKeyDecoding
    | some pk =>
      if publicKeyVerify pk unsigned env.signature then .ok env
      else .error .signatureVerification

theorem length_encodeVarintAux_le (f n : Nat) :
    (encodeVarintAux f n).length ≤ f + 1 := by
  induction f generalizing n with
  | zero => simp [encodeVarintAux]
  | succ f ih =>
    by_cases h : n < 128
    · simp [encodeVarintAux, h]
    · simp only [encodeVarintAux, h, if_false, List.length_cons]
      have := ih (n / 128)
      omega

theorem length_encodeVarint_le (n : Nat) (h : n < 128 ^ 9) :
    (encodeVarint n).length ≤ 10 := by
  rw [encodeVarint_eq_aux 9 n h]
  exact length_encodeVarintAux_le 9 n

/-- Sealing then consuming recovers the record: the composite round trip of
prost envelope encoding, identity-record marshalling and the signature
check.  The size hypothesis holds for every record representable in the
Rust implementation, where byte lengths are below 2 to the 64. -/
theorem consume_envelope_seal_record (r : NodeInfo) (k : Keypair)
    (hp : r.marshal.length < 2 ^ 60) :
    ∃ env, seal_record r k = Except.ok env ∧
      consume_envelope env.encode = .ok env r := by
  set raw := r.marshal with hraw
  set unsigned :=
    make_unsigned (strBytes "ssv") (strBytes "ssv:nodeinfo") raw with huns
  refine ⟨⟨k.publicProtobuf, strBytes "ssv:nodeinfo", raw, k.signed unsigned⟩,
    ?_, ?_⟩
  · rfl
  · have hrawne : raw ≠ [] := by
      rw [hraw, NodeInfo.marshal, printEntriesDoc]
      simp
    have hsigne : (k.signed unsigned) ≠ [] := by simp [Keypair.signed]
    have hlsig : (k.signed unsigned).length < 2 ^ 64 := by
      have h1 : (encodeVarint (strBytes "ssv").length).length = 1 := by rfl
      have h2 : (encodeVarint (strBytes "ssv:nodeinfo").length).length = 1 := by
        rfl
      have h3 : (encodeVarint raw.length).length ≤ 10 :=
        length_encodeVarint_le _ (lt_trans hp (by norm_num))
      simp only [Keypair.signed, List.length_cons, huns, make_unsigned,
        List.length_append, h1, h2]
      have : (strBytes "ssv").length = 3 := by rfl
      rw [this]
      have : (strBytes "ssv:nodeinfo").length = 12 := by rfl
      rw [this]
      have hb : (2 : Nat) ^ 60 < 2 ^ 64 := by norm_num
      omega
    have hdec : Envelope.decode
        (Envelope.encode ⟨k.publicProtobuf, strBytes "ssv:nodeinfo", raw,
          k.signed unsigned⟩) =
        some ⟨k.publicProtobuf, strBytes "ssv:nodeinfo", raw,
          k.signed unsigned⟩ := by
      apply Envelope.decode_encode
      · simp [Keypair.publicProtobuf]
      · simp [strBytes]
      · exact hrawne
      · exact hsigne
      · simp [Keypair.publicProtobuf]
      · norm_num [strBytes]
      · exact lt_trans hp (by norm_num)
      · exact hlsig
    rw [consume_envelope, hdec]
    simp only
    rw [NodeInfo.unmarshal_marshal r]
    simp [Keypair.publicProtobuf, tryDecodePublicKey, publicKeyVerify,
      Keypair.signed]

/-! ## Handshake engine (handshake/mod.rs)

The error and event types are modeled from their construction sites in
mod.rs (the standalone error.rs declares an older incompatible shape — a
unit NetworkMismatch and no UnmarshalError, Outbound or Inbound variants —
and does not match the engine code).  Pushing onto self.events is modeled
by the list of events each handler appends.  Peers are identified by a
natural number. -/

inductive HandshakeError where
  | unmarshalError (e : RecordError)
  | networkMismatch (ours theirs : Bytes)
  | outbound
  | inbound
deriving DecidableEq

inductive HsEvent where
  | completed (peer : Nat) (their_info : NodeInfo)
  | failed (peer : Nat) (error : HandshakeError)
deriving DecidableEq

/-- sealed_node_record (mod.rs lines 72-75): seal the local info with the
node keypair and unwrap.  The unwrap cannot fire because the DOMAIN and
CODEC constants are nonempty; the default envelope stands in for the
unreachable branch. -/
def sealed_node_record (localInfo : NodeInfo) (k : Keypair) : Envelope :=
  match NodeInfo.seal localInfo k with
  | .ok env => env
  | .error _ => default

/-- verify_node_info (mod.rs lines 78-88): require equality of the received
network id with the local one, reporting both on mismatch. -/
def verify_node_info (ours : Bytes) (info : NodeInfo) :
    Except HandshakeError Unit :=
  if info.network_id ≠ ours then
    .error (.networkMismatch ours info.network_id)
  else .ok ()

/-- unmarshall_and_verify (mod.rs lines 107-124): unmarshal the payload of
the given envelope into a default record, pushing a Failed event on error
WITHOUT returning, then verify the (possibly only partially updated) record
and push a second event for the same message. -/
def unmarshall_and_verify (ours : Bytes) (peer : Nat) (response : Envelope) :
    List HsEvent :=
  let ti := NodeInfo.unmarshal default response.payload
  (match ti.2 with
   | some e => [.failed peer (.unmarshalError e)]
   | none => []) ++
  (match verify_node_info ours ti.1 with
   | .ok _ => [.completed peer ti.1]
   | .error e => [.failed peer e])

/-- handle_handshake_request (mod.rs lines 90-101): seal the local record,
send it as the response, and on send success run unmarshall_and_verify on
that freshly built response — the local record, not the received request —
while a send failure runs no verification at all (the request argument is
never examined). -/
def handle_handshake_request (localInfo : NodeInfo) (k : Keypair)
    (peer : Nat) (request : Envelope) (sendOk : Bool) : List HsEvent :=
  let response := sealed_node_record localInfo k
  if sendOk then unmarshall_and_verify localInfo.network_id peer response
  else []

/-- handle_handshake_response (mod.rs lines 103-105): verify the received
response envelope. -/
def handle_handshake_response (ours : Bytes) (peer : Nat)
    (response : Envelope) : List HsEvent :=
  unmarshall_and_verify ours peer response

/-! ## Stream codec (handshake/codec.rs)

EnvelopeCodec frames envelopes over the request-response streams.  The
writer and reader of each direction are modeled as pure functions from and
to byte strings; read_exact with too little input, an oversized varint and
a failed envelope decode are all read errors. -/

/-- Big-endian four-byte rendering of a u32 length (to_be_bytes after the
as-u32 truncation). -/
def be32 (n : Nat) : Bytes :=
  [n / 2 ^ 24 % 256, n / 2 ^ 16 % 256, n / 2 ^ 8 % 256, n % 256]

/-- EnvelopeCodec::write_request (codec.rs lines 134-152): varint length
prefix, then the prost-encoded envelope. -/
def write_request (e : Envelope) : Bytes :=
  encodeVarint e.encode.length ++ e.encode

/-- EnvelopeCodec::read_request (codec.rs lines 64-87): four-byte big-endian
length prefix, then exactly that many bytes, decoded as an envelope. -/
def read_request (input : Bytes) : Option Envelope :=
  match input with
  | b0 :: b1 :: b2 :: b3 :: rest =>
    let n := ((b0 * 256 + b1) * 256 + b2) * 256 + b3
    if n ≤ rest.length then Envelope.decode (rest.take n) else none
  | _ => none

/-- EnvelopeCodec::write_response (codec.rs lines 154-175): four-byte
big-endian length prefix, then the prost-encoded envelope. -/
def write_response (e : Envelope) : Bytes :=
  be32 e.encode.length ++ e.encode

/-- EnvelopeCodec::read_response (codec.rs lines 89-132): varint length
prefix read byte-at-a-time (ten bytes at most), then exactly that many
bytes, decoded as an envelope. -/
def read_response (input : Bytes) : Option Envelope :=
  match decodeVarint input with
  | some (n, rest) =>
    if n ≤ rest.length then Envelope.decode (rest.take n) else none
  | none => none

/-! ## 32-bit float arithmetic (peer_manager/mod.rs threshold computations)

The peer-count thresholds are computed in Rust f32 arithmetic.  A finite
nonnegative f32 value is represented here exactly as a dyadic number, a
natural significand times an integer power of two; every operation rounds
its exact result to a 24-bit significand with the IEEE round-to-nearest,
ties-to-even rule, which is precisely what f32 addition, multiplication
and the usize-to-f32 cast do on the magnitudes involved (no overflow and
no subnormals arise for any quantity appearing below; the one division in
the source divides by the literal 2.0, which is exact in binary floating
point and modeled as an exponent decrement). -/

/-- Quotient rounded to the nearest integer, ties to even. -/
def divNearestEven (a b : Nat) : Nat :=
  let q := a / b
  let r := a % b
  if 2 * r < b then q
  else if b < 2 * r then q + 1
  else if q % 2 = 0 then q
  else q + 1

/-- Fuel-indexed floor of the base-2 logarithm. -/
def natLog2Aux : Nat → Nat → Nat
  | 0, _ => 0
  | fuel + 1, n => if n < 2 then 0 else natLog2Aux fuel (n / 2) + 1

/-- Floor of the base-2 logarithm of a positive natural (fuel n suffices
since the logarithm never exceeds its argument). -/
def natLog2 (n : Nat) : Nat := natLog2Aux n n

/-- A nonnegative binary32 value: the dyadic number m times 2 to the E. -/
structure F32 where
  m : Nat
  E : Int
deriving DecidableEq

/-- Round a dyadic number to a 24-bit significand, nearest, ties to
even. -/
def roundDyadic (m : Nat) (E : Int) : F32 :=
  if m = 0 then ⟨0, 0⟩
  else
    let e := natLog2 m
    if e ≤ 23 then ⟨m, E⟩
    else
      let sh := e - 23
      ⟨divNearestEven m (2 ^ sh), E + sh⟩

/-- Round a positive fraction to the nearest binary32 value (the value of
an f32 decimal literal such as 0.1). -/
def roundFrac (num den : Nat) : F32 :=
  if num = 0 then ⟨0, 0⟩
  else
    let e : Int := (natLog2 (num * 2 ^ 64 / den) : Int) - 64
    let sh : Int := 23 - e
    if 0 ≤ sh then ⟨divNearestEven (num * 2 ^ sh.toNat) den, e - 23⟩
    else ⟨divNearestEven num (den * 2 ^ (- sh).toNat), e - 23⟩

/-- f32 addition: align exponents, add exactly, round. -/
def addF32 (a b : F32) : F32 :=
  let E := min a.E b.E
  roundDyadic (a.m * 2 ^ (a.E - E).toNat + b.m * 2 ^ (b.E - E).toNat) E

/-- f32 multiplication: multiply exactly, round. -/
def mulF32 (a b : F32) : F32 := roundDyadic (a.m * b.m) (a.E + b.E)

/-- f32 division by the literal 2.0: exact in binary floating point. -/
def halfF32 (a : F32) : F32 := ⟨a.m, a.E - 1⟩

/-- The as-f32 cast of a usize (rounds like every other operation). -/
def toF32 (n : Nat) : F32 := roundDyadic n 0

/-- Ceil of a nonnegative f32 value followed by the as-usize cast. -/
def ceilUsize (a : F32) : Nat :=
  if 0 ≤ a.E then a.m * 2 ^ a.E.toNat
  else (a.m + 2 ^ (- a.E).toNat - 1) / 2 ^ (- a.E).toNat

/-! ## Peer manager (peer_manager/mod.rs) -/

/-- The f32 literal 0.1 (PEER_EXCESS_FACTOR, mod.rs line 26). -/
def PEER_EXCESS_FACTOR : F32 := roundFrac 1 10

/-- The f32 literal 0.3 (TARGET_OUTBOUND_ONLY_FACTOR, mod.rs line 29). -/
def TARGET_OUTBOUND_ONLY_FACTOR : F32 := roundFrac 3 10

/-- The f32 literal 0.2 (MIN_OUTBOUND_ONLY_FACTOR, mod.rs line 33). -/
def MIN_OUTBOUND_ONLY_FACTOR : F32 := roundFrac 2 10

/-- The f32 literal 0.2 (PRIORITY_PEER_EXCESS, mod.rs line 39). -/
def PRIORITY_PEER_EXCESS : F32 := roundFrac 2 10

/-- The f32 literal 1.0. -/
def oneF32 : F32 := ⟨1, 0⟩

/-- max_peers (mod.rs lines 111-113). -/
def max_peers (T : Nat) : Nat :=
  ceilUsize (mulF32 (toF32 T) (addF32 oneF32 PEER_EXCESS_FACTOR))

/-- max_priority_peers (mod.rs lines 118-121). -/
def max_priority_peers (T : Nat) : Nat :=
  ceilUsize (mulF32 (toF32 T)
    (addF32 (addF32 oneF32 PEER_EXCESS_FACTOR) PRIORITY_PEER_EXCESS))

/-- min_outbound_only_peers (mod.rs lines 124-126). -/
def min_outbound_only_peers (T : Nat) : Nat :=
  ceilUsize (mulF32 (toF32 T) MIN_OUTBOUND_ONLY_FACTOR)

/-- target_outbound_peers (mod.rs lines 129-131). -/
def target_outbound_peers (T : Nat) : Nat :=
  ceilUsize (mulF32 (toF32 T) TARGET_OUTBOUND_ONLY_FACTOR)

/-- max_outbound_dialing_peers (mod.rs lines 135-138). -/
def max_outbound_dialing_peers (T : Nat) : Nat :=
  ceilUsize (mulF32 (toF32 T)
    (addF32 (addF32 oneF32 PEER_EXCESS_FACTOR) (halfF32 PRIORITY_PEER_EXCESS)))

/-! ### Discovery admission and population maintenance

The PeerDB collaborator (peer_manager/peerdb.rs, outside the model) is
consumed through a read snapshot: whether a candidate should be dialed and
the two connection counts.  The manager reads these but the functions
modeled here never change them (queueing a dial and caching a deadline do
not alter the db connection state).  Candidates (Enr values) are identified
with their peer ids as naturals; deadlines (Instant values) are opaque
naturals.  Of the event enum, these code paths produce only
DiscoverPeers. -/

structure PeerStoreView where
  should_dial : Nat → Bool
  connected_or_dialing : Nat
  connected_outbound_only : Nat

inductive PMEvent where
  | discoverPeers (n : Nat)
deriving DecidableEq

structure PMState where
  peers_to_dial : List Nat
  min_ttl_cache : List (Nat × Nat)
  events : List PMEvent
deriving DecidableEq

instance : Inhabited PMState := ⟨⟨[], [], []⟩⟩

/-- dial_peer (mod.rs lines 140-149): queue the candidate when the store
reports it dialable; report whether it was queued. -/
def dial_peer (store : PeerStoreView) (s : PMState) (enr : Nat) :
    PMState × Bool :=
  if store.should_dial enr then
    ({ s with peers_to_dial := s.peers_to_dial ++ [enr] }, true)
  else (s, false)

/-- Body of the peers_discovered loop (mod.rs lines 159-187) for one
discovery result, with the connected-or-dialing count read once before the
loop and the number of candidates admitted earlier in this batch.  The
condition matches the source, including its disabled (TODO) priority cap:
a candidate carrying a deadline bypasses the max_peers bound entirely.  The
deadline is cached before the dial attempt. -/
def discovered_step (T : Nat) (store : PeerStoreView)
    (connected_or_dialing : Nat) (acc : PMState × Nat)
    (r : Nat × Option Nat) : PMState × Nat :=
  let s := acc.1
  let to_dial := acc.2
  let enr := r.1
  let min_ttl := r.2
  if ¬ s.peers_to_dial.contains enr ∧
      (min_ttl.isSome ∨ connected_or_dialing + to_dial < max_peers T) then
    let s1 := match min_ttl with
      | some ttl =>
        { s with min_ttl_cache := s.min_ttl_cache ++ [(enr, ttl)] }
      | none => s
    match dial_peer store s1 enr with
    | (s2, true) => (s2, to_dial + 1)
    | (s2, false) => (s2, to_dial)
  else (s, to_dial)

/-- maintain_peer_count (mod.rs lines 224-256): when discovery is enabled,
compute the wanted peer count and queue a DiscoverPeers event when it is
nonzero.  Nat subtraction coincides with the saturating_sub calls of the
source, and the one plain Rust subtraction cannot underflow on its
reachable branch. -/
def maintain_peer_count (T : Nat) (store : PeerStoreView)
    (discovery_enabled : Bool) (s : PMState) (dialing_peers : Nat) :
    PMState :=
  if discovery_enabled then
    let peer_count := store.connected_or_dialing
    let outbound_only_peer_count := store.connected_outbound_only
    let wanted_peers :=
      if peer_count < T - dialing_peers then
        max_peers T - dialing_peers - peer_count
      else if outbound_only_peer_count < min_outbound_only_peers T ∧
          peer_count < max_outbound_dialing_peers T then
        max_outbound_dialing_peers T - dialing_peers - peer_count
      else 0
    if wanted_peers ≠ 0 then
      { s with events := s.events ++ [.discoverPeers wanted_peers] }
    else s
  else s

/-- peers_discovered (mod.rs lines 155-205): fold the admission step over
the results, then either suppress the immediate re-query (non-empty batch,
nothing admitted) or run population maintenance with the number of
admitted candidates.  The Rust results argument is a HashMap whose
iteration order is unspecified; the model receives the results as a list
in one such order, and every statement below holds for all orders. -/
def peers_discovered (T : Nat) (store : PeerStoreView)
    (discovery_enabled : Bool) (s : PMState)
    (results : List (Nat × Option Nat)) : PMState :=
  let connected_or_dialing := store.connected_or_dialing
  let folded := results.foldl
    (discovered_step T store connected_or_dialing) (s, 0)
  if results.length > 0 ∧ folded.2 = 0 then folded.1
  else maintain_peer_count T store discovery_enabled folded.1 folded.2

/-- The discovery-admission loop never touches the event queue. -/
theorem discovered_loop_events (T : Nat) (store : PeerStoreView) (c : Nat) :
    ∀ (results : List (Nat × Option Nat)) (s : PMState) (d : Nat),
      ((results.foldl (discovered_step T store c) (s, d)).1).events =
        s.events := by
  intro results
  induction results with
  | nil => intro s d; simp
  | cons r tl ih =>
    intro s d
    rw [List.foldl_cons]
    have hstep : ((discovered_step T store c (s, d) r).1).events = s.events := by
      obtain ⟨enr, ttl⟩ := r
      cases ttl <;> by_cases h1 : enr ∈ s.peers_to_dial <;>
        by_cases h2 : c + d < max_peers T <;>
        by_cases h3 : store.should_dial enr <;>
        simp [discovered_step, dial_peer, h1, h2, h3]
    rw [show discovered_step T store c (s, d) r =
      ((discovered_step T store c (s, d) r).1,
       (discovered_step T store c (s, d) r).2) from rfl]
    rw [ih]
    exact hstep

/-! ## Claim theorems -/

/-- C1: on an inbound handshake request the engine of handshake/mod.rs does
NOT verify the submitted peer record.  With a local network id mainnet and a
request sealed by the peer over the network id other, a successful send
makes handle_handshake_request verify its own freshly sealed response and
emit Completed carrying the LOCAL record, and a failed send makes it verify
nothing; running unmarshall_and_verify on the actual request — what the
specification prescribes — would instead produce the NetworkMismatch
failure shown in the third conjunct. -/
theorem c1_inbound_request_verifies_own_response :
    handle_handshake_request ⟨strBytes "mainnet", none⟩ ⟨7⟩ 0
        (sealed_node_record ⟨strBytes "other", none⟩ ⟨9⟩) true =
      [HsEvent.completed 0 ⟨strBytes "mainnet", none⟩] ∧
    handle_handshake_request ⟨strBytes "mainnet", none⟩ ⟨7⟩ 0
        (sealed_node_record ⟨strBytes "other", none⟩ ⟨9⟩) false = [] ∧
    unmarshall_and_verify (strBytes "mainnet") 0
        (sealed_node_record ⟨strBytes "other", none⟩ ⟨9⟩) =
      [HsEvent.failed 0
        (.networkMismatch (strBytes "mainnet") (strBytes "other"))] := by
  decide

/-- C2: sealing an identity record and consuming the resulting envelope
succeeds and recovers the record, and unmarshal of marshal is the identity
on every record; the size hypothesis holds for every record representable
in the Rust implementation (byte lengths are below 2 to the 64). -/
theorem c2_seal_consume_roundtrip (r : NodeInfo) (k : Keypair)
    (hp : r.marshal.length < 2 ^ 60) :
    (∃ env, seal_record r k = Except.ok env ∧
      consume_envelope env.encode = .ok env r) ∧
    NodeInfo.unmarshal default r.marshal = (r, none) :=
  ⟨consume_envelope_seal_record r k hp, NodeInfo.unmarshal_marshal r⟩

/-- Witness for C2 at a concrete record and keypair. -/
theorem c2_seal_consume_roundtrip_witness :
    (NodeInfo.mk (strBytes "testnet")
      (some ⟨strBytes "v1", strBytes "geth", strBytes "prysm",
        strBytes "00"⟩)).marshal.length < 2 ^ 60 ∧
    ((∃ env, seal_record ⟨strBytes "testnet",
        some ⟨strBytes "v1", strBytes "geth", strBytes "prysm",
          strBytes "00"⟩⟩ ⟨5⟩ = Except.ok env ∧
      consume_envelope env.encode = .ok env ⟨strBytes "testnet",
        some ⟨strBytes "v1", strBytes "geth", strBytes "prysm",
          strBytes "00"⟩⟩) ∧
    NodeInfo.unmarshal default (NodeInfo.mk (strBytes "testnet")
      (some ⟨strBytes "v1", strBytes "geth", strBytes "prysm",
        strBytes "00"⟩)).marshal =
      (⟨strBytes "testnet", some ⟨strBytes "v1", strBytes "geth",
        strBytes "prysm", strBytes "00"⟩⟩, none)) :=
  ⟨by decide, c2_seal_consume_roundtrip _ ⟨5⟩ (by decide)⟩

/-- C3: for a payload that unmarshals cleanly to a record, verification
fails exactly when the network id differs from the local one, the failure
carries both ids, and the emitted event is Completed with the received
record on equality and the NetworkMismatch failure otherwise. -/
theorem c3_verify_network_id_iff (ours : Bytes) (peer : Nat) (env : Envelope)
    (r : NodeInfo) (h : NodeInfo.unmarshal default env.payload = (r, none)) :
    (∀ e, verify_node_info ours r = .error e ↔
      (r.network_id ≠ ours ∧ e = .networkMismatch ours r.network_id)) ∧
    (verify_node_info ours r = .ok () ↔ r.network_id = ours) ∧
    unmarshall_and_verify ours peer env =
      [if r.network_id = ours then HsEvent.completed peer r
       else HsEvent.failed peer (.networkMismatch ours r.network_id)] := by
  refine ⟨?_, ?_, ?_⟩
  · intro e
    by_cases hq : r.network_id = ours <;>
      simp [verify_node_info, hq, eq_comm]
  · by_cases hq : r.network_id = ours <;> simp [verify_node_info, hq]
  · simp only [unmarshall_and_verify, h]
    by_cases hq : r.network_id = ours <;> simp [verify_node_info, hq]

/-- Witness for C3 at a concrete matching payload. -/
theorem c3_verify_network_id_iff_witness :
    NodeInfo.unmarshal default
      (Envelope.mk [1, 5] (strBytes "ssv/nodeinfo")
        (NodeInfo.mk (strBytes "testnet") none).marshal [5]).payload =
      (⟨strBytes "testnet", none⟩, none) ∧
    unmarshall_and_verify (strBytes "testnet") 0
      (Envelope.mk [1, 5] (strBytes "ssv/nodeinfo")
        (NodeInfo.mk (strBytes "testnet") none).marshal [5]) =
      [if (strBytes "testnet") = (strBytes "testnet") then
        HsEvent.completed 0 ⟨strBytes "testnet", none⟩
       else HsEvent.failed 0 (.networkMismatch (strBytes "testnet")
        (strBytes "testnet"))] :=
  ⟨by decide,
   (c3_verify_network_id_iff (strBytes "testnet") 0
     (Envelope.mk [1, 5] (strBytes "ssv/nodeinfo")
       (NodeInfo.mk (strBytes "testnet") none).marshal [5])
     ⟨strBytes "testnet", none⟩ (by decide)).2.2⟩

/-- C4 counterexample: unmarshalling the entries list with a malformed
third entry into a record whose network id is old returns the decode error
but leaves the record MODIFIED: its network id has become testnet, so it
differs from the original record, contradicting the claim that the record
is left completely unmodified. -/
theorem c4_partial_mutation_counterexample :
    NodeInfo.unmarshalEntries ⟨strBytes "old", none⟩
        [[], strBytes "testnet", strBytes "oops"] =
      (⟨strBytes "testnet", none⟩, some .serialization) ∧
    (⟨strBytes "testnet", none⟩ : NodeInfo) ≠ ⟨strBytes "old", none⟩ := by
  decide

/-- C4 amended: the two-entry list succeeds with no metadata, appending a
well-formed metadata rendering succeeds with that metadata, and a malformed
third entry returns the decode error with the metadata field unmodified but
the network id already overwritten from entry 1. -/
theorem c4_amended_unmarshal_entries :
    NodeInfo.unmarshalEntries default [[], strBytes "testnet"] =
      (⟨strBytes "testnet", none⟩, none) ∧
    (∀ m : NodeMetadata, NodeInfo.unmarshalEntries default
        [[], strBytes "testnet", m.marshal] =
      (⟨strBytes "testnet", some m⟩, none)) ∧
    (∀ (r : NodeInfo) (e2 : Bytes), NodeMetadata.unmarshal e2 = none →
      NodeInfo.unmarshalEntries r [[], strBytes "testnet", e2] =
        ({ r with network_id := strBytes "testnet" }, some .serialization)) := by
  refine ⟨by decide, ?_, ?_⟩
  · intro m
    simp [NodeInfo.unmarshalEntries, NodeMetadata.unmarshal_marshal_meta]
  · intro r e2 h
    simp [NodeInfo.unmarshalEntries, h]

/-- Witness for C4 at a concrete malformed metadata entry. -/
theorem c4_amended_unmarshal_entries_witness :
    NodeMetadata.unmarshal (strBytes "oops") = none ∧
    NodeInfo.unmarshalEntries ⟨strBytes "old", some default⟩
        [[], strBytes "testnet", strBytes "oops"] =
      ({ (⟨strBytes "old", some default⟩ : NodeInfo) with
          network_id := strBytes "testnet" }, some .serialization) :=
  ⟨by decide,
   c4_amended_unmarshal_entries.2.2 ⟨strBytes "old", some default⟩
     (strBytes "oops") (by decide)⟩

deriving instance DecidableEq for Except

/-- C5: consume_envelope PANICS (the unwrap at record/signing.rs line 62)
on an envelope whose public_key bytes are not a decodable key, instead of
returning the PublicKeyDecoding error; the parse_envelope iteration of
envelope/mod.rs returns that error on the same input, as the claim
describes. -/
theorem c5_consume_envelope_panics_on_bad_key :
    consume_envelope ((Envelope.mk [0] (strBytes "ssv:nodeinfo")
        (NodeInfo.mk (strBytes "x") none).marshal [5]).encode) =
      ConsumeOutcome.panicked ∧
    parse_envelope ((Envelope.mk [0] (strBytes "ssv:nodeinfo")
        (NodeInfo.mk (strBytes "x") none).marshal [5]).encode) =
      Except.error .publicKeyDecoding := by
  decide

/-- C6: the handshake codec does not use one framing scheme: the request
writer emits a varint length prefix but the request reader expects a
four-byte big-endian prefix, and the response writer emits four-byte
big-endian while the response reader expects a varint, so write-then-read
fails on the request path and misdecodes on the response path for the
one-byte-payload envelope. -/
theorem c6_codec_framing_mismatch :
    read_request (write_request ⟨[], [], [7], []⟩) = none ∧
    read_response (write_response ⟨[], [], [7], []⟩) = some default ∧
    (default : Envelope) ≠ ⟨[], [], [7], []⟩ := by
  decide

/-- C7 counterexample: at the target count 50 the code yields
max_outbound_dialing_peers of 61 and target_outbound_peers of 16, while the
exact ceilings of the stated products are 60 and 15: f32 rounding lands
just above the exactly representable products 60 and 15. -/
theorem c7_threshold_counterexample :
    max_outbound_dialing_peers 50 = 61 ∧ target_outbound_peers 50 = 16 ∧
    ⌈(50 : ℚ) * (6 / 5)⌉ = 60 ∧ ⌈(50 : ℚ) * (3 / 10)⌉ = 15 := by
  refine ⟨by decide, by decide, ?_, ?_⟩
  · rw [show (50 : ℚ) * (6 / 5) = ((60 : ℤ) : ℚ) by norm_num]
    exact Int.ceil_intCast 60
  · rw [show (50 : ℚ) * (3 / 10) = ((15 : ℤ) : ℚ) by norm_num]
    exact Int.ceil_intCast 15

/-- C7 amended: the thresholds are ceilings of the products computed in f32
arithmetic, which can round just above an exactly representable product; at
the target count 50 they are 55, 65, 10, 16 and 61. -/
theorem c7_amended_thresholds :
    max_peers 50 = 55 ∧ max_priority_peers 50 = 65 ∧
    min_outbound_only_peers 50 = 10 ∧ target_outbound_peers 50 = 16 ∧
    max_outbound_dialing_peers 50 = 61 := by
  decide

/-- C8: a dialable discovery candidate is admitted exactly when it is not
already queued and either carries a deadline or the connected-or-dialing
count plus the candidates admitted earlier in the batch is below max_peers;
its deadline is cached on admission; and with target 50 a candidate without
deadline is rejected at count 55 while the same candidate with a deadline
is admitted at count 65. -/
theorem c8_discovery_admission (T : Nat) (store : PeerStoreView)
    (c d : Nat) (s : PMState) (enr : Nat) (ttl : Option Nat)
    (h : store.should_dial enr = true) :
    (((discovered_step T store c (s, d) (enr, ttl)).2 = d + 1 ∧
      (discovered_step T store c (s, d) (enr, ttl)).1.peers_to_dial =
        s.peers_to_dial ++ [enr]) ↔
      (enr ∉ s.peers_to_dial ∧
        (ttl.isSome ∨ c + d < max_peers T))) ∧
    (∀ t, ttl = some t → enr ∉ s.peers_to_dial →
      (discovered_step T store c (s, d) (enr, ttl)).1.min_ttl_cache =
        s.min_ttl_cache ++ [(enr, t)]) ∧
    discovered_step 50 store 55 (⟨[], [], []⟩, 0) (enr, none) =
      (⟨[], [], []⟩, 0) ∧
    (∀ t, discovered_step 50 store 65 (⟨[], [], []⟩, 0) (enr, some t) =
      (⟨[enr], [(enr, t)], []⟩, 1)) := by
  have h50 : max_peers 50 = 55 := by decide
  refine ⟨?_, ?_, ?_, ?_⟩
  · by_cases hmem : enr ∈ s.peers_to_dial
    · simp [discovered_step, hmem]
    · cases ttl with
      | none =>
        by_cases hc : c + d < max_peers T <;>
          simp [discovered_step, dial_peer, hmem, hc, h]
      | some t =>
        simp [discovered_step, dial_peer, hmem, h]
  · intro t ht hmem
    subst ht
    simp [discovered_step, dial_peer, hmem, h]
  · simp [discovered_step, h50]
  · intro t
    simp [discovered_step, dial_peer, h]

/-- Witness for C8 at a concrete store, exercising the rejected and the
admitted concrete cases. -/
theorem c8_discovery_admission_witness :
    (PeerStoreView.mk (fun _ => true) 55 0).should_dial 1 = true ∧
    discovered_step 50 ⟨fun _ => true, 55, 0⟩ 55 (⟨[], [], []⟩, 0)
      (1, none) = (⟨[], [], []⟩, 0) ∧
    discovered_step 50 ⟨fun _ => true, 55, 0⟩ 65 (⟨[], [], []⟩, 0)
      (1, some 9) = (⟨[1], [(1, 9)], []⟩, 1) :=
  ⟨rfl,
   (c8_discovery_admission 50 ⟨fun _ => true, 55, 0⟩ 55 0 ⟨[], [], []⟩ 1
     none rfl).2.2.1,
   (c8_discovery_admission 50 ⟨fun _ => true, 55, 0⟩ 65 0 ⟨[], [], []⟩ 1
     (some 9) rfl).2.2.2 9⟩

/-- C9: a non-empty discovery batch that admits no candidate leaves the
state of the admission loop untouched — in particular no DiscoverPeers
event is queued by the call — while an empty batch or one admitting at
least one candidate hands the admitted count to maintain_peer_count, which
may queue a discovery request for the remaining shortfall. -/
theorem c9_no_requery_when_no_admission (T : Nat) (store : PeerStoreView)
    (de : Bool) (s : PMState) (results : List (Nat × Option Nat)) :
    (results ≠ [] →
      (results.foldl (discovered_step T store store.connected_or_dialing)
        (s, 0)).2 = 0 →
      peers_discovered T store de s results =
        (results.foldl (discovered_step T store store.connected_or_dialing)
          (s, 0)).1 ∧
      (peers_discovered T store de s results).events = s.events) ∧
    ((results = [] ∨
      (results.foldl (discovered_step T store store.connected_or_dialing)
        (s, 0)).2 ≠ 0) →
      peers_discovered T store de s results =
        maintain_peer_count T store de
          (results.foldl (discovered_step T store store.connected_or_dialing)
            (s, 0)).1
          (results.foldl (discovered_step T store store.connected_or_dialing)
            (s, 0)).2) := by
  constructor
  · intro hne h0
    have hlen : results.length > 0 := by
      cases results with
      | nil => exact absurd rfl hne
      | cons a tl => simp
    constructor
    · simp only [peers_discovered]
      rw [if_pos ⟨hlen, h0⟩]
    · simp only [peers_discovered]
      rw [if_pos ⟨hlen, h0⟩]
      exact discovered_loop_events T store store.connected_or_dialing
        results s 0
  · intro hcase
    simp only [peers_discovered]
    rcases hcase with hnil | hnz
    · subst hnil
      simp [maintain_peer_count]
    · rw [if_neg]
      intro ⟨_, h0⟩
      exact hnz h0

/-- Witness for C9: one result, no deadline, count already at the cap, so
nothing is admitted and the call returns the loop state unchanged. -/
theorem c9_no_requery_when_no_admission_witness :
    ([((1 : Nat), (none : Option Nat))] ≠ []) ∧
    peers_discovered 50 ⟨fun _ => true, 55, 0⟩ true ⟨[], [], []⟩
      [(1, none)] = ⟨[], [], []⟩ :=
  ⟨by decide,
   (((c9_no_requery_when_no_admission 50 ⟨fun _ => true, 55, 0⟩ true
       ⟨[], [], []⟩ [(1, none)]).1 (by decide) (by decide)).1).trans
     (by decide)⟩

/-- C10: a payload that fails to unmarshal makes unmarshall_and_verify
push Failed with the unmarshal error and then still verify the (here
unchanged default) record and push a second event for the same message;
when the local network id is the empty string, the second event is
Completed with the default record. -/
theorem c10_double_event_on_unmarshal_failure (ours : Bytes) (peer : Nat) :
    unmarshall_and_verify ours peer
        ⟨[1, 9], strBytes "ssv/nodeinfo", strBytes "not json", [9]⟩ =
      [HsEvent.failed peer (.unmarshalError .serialization),
       if (default : NodeInfo).network_id = ours
         then HsEvent.completed peer default
         else HsEvent.failed peer
           (.networkMismatch ours (default : NodeInfo).network_id)] ∧
    (ours = [] →
      unmarshall_and_verify ours peer
          ⟨[1, 9], strBytes "ssv/nodeinfo", strBytes "not json", [9]⟩ =
        [HsEvent.failed peer (.unmarshalError .serialization),
         HsEvent.completed peer default]) := by
  have h : NodeInfo.unmarshal default (strBytes "not json") =
      (default, some .serialization) := by decide
  constructor
  · simp only [unmarshall_and_verify, h]
    by_cases hq : (default : NodeInfo).network_id = ours <;>
      simp [verify_node_info, hq]
  · intro hours
    subst hours
    simp only [unmarshall_and_verify, h]
    simp [verify_node_info, default]

/-- Witness for C10 with an empty local network id: the single malformed
message produces both a Failed and a Completed event. -/
theorem c10_double_event_on_unmarshal_failure_witness :
    unmarshall_and_verify [] 0
        ⟨[1, 9], strBytes "ssv/nodeinfo", strBytes "not json", [9]⟩ =
      [HsEvent.failed 0 (.unmarshalError .serialization),
       HsEvent.completed 0 default] :=
  (c10_double_event_on_unmarshal_failure [] 0).2 rfl

end Anchor
